import Mathlib

/-!
Shallow embedding of the flashcard-generation pipeline of the Flashcards
repository (src/backend/flashcards.py, src/backend/models.py,
src/backend/spaced_repetition.py) and proofs about it.

Strings are modelled as lists of characters; the Python string and regex
operations used by the source are embedded as executable functions on
`List Char`.  Public functions keep the source names and operate on
`String` at the boundary.
-/

namespace Flashcards

/-- Characters treated as whitespace by Python str.strip and str.split (ASCII). -/
def isSpaceCh (c : Char) : Bool :=
  c = ' ' || c = '\t' || c = '\n' || c = '\r' || c = '\x0b' || c = '\x0c'

/-- Word characters of the Python regex class backslash-w (ASCII). -/
def isWordCh (c : Char) : Bool := c.isAlphanum || c = '_'

/-- Lowercasing of a character list, mirroring Python str.lower on ASCII text. -/
def lowerL (l : List Char) : List Char := l.map Char.toLower

/-- Python str.strip(): remove leading and trailing whitespace. -/
def stripL (l : List Char) : List Char :=
  ((l.dropWhile isSpaceCh).reverse.dropWhile isSpaceCh).reverse

/-- Checks that the second list is a leading segment of the first. -/
def startsWithL : List Char → List Char → Bool
  | _, [] => true
  | [], _ :: _ => false
  | a :: as, b :: bs => a == b && startsWithL as bs

/-- Python substring containment (pat in s). -/
def containsSub (s pat : List Char) : Bool :=
  match s with
  | [] => startsWithL [] pat
  | c :: r => startsWithL (c :: r) pat || containsSub r pat

/-- Counts maximal non-whitespace runs, i.e. len(s.split()) in Python. -/
def wordCountAux : Bool → List Char → Nat
  | _, [] => 0
  | inw, c :: r =>
    if isSpaceCh c then wordCountAux false r
    else (if inw then 0 else 1) + wordCountAux true r

/-- Number of whitespace-separated words of a line. -/
def wordCount (l : List Char) : Nat := wordCountAux false l

/-- Maximal runs of word characters, in order, used for the regex
token scan over lowercased text. -/
def wordRunsAux (cur : List Char) : List Char → List (List Char)
  | [] => if cur.isEmpty then [] else [cur.reverse]
  | c :: r =>
    if isWordCh c then wordRunsAux (c :: cur) r
    else if cur.isEmpty then wordRunsAux [] r
    else cur.reverse :: wordRunsAux [] r

/-- Maximal word-character runs of a line. -/
def wordRuns (l : List Char) : List (List Char) := wordRunsAux [] l

/-- Case-insensitive literal match of a pattern against a leading segment;
returns the remaining suffix on success. -/
def matchesIC : List Char → List Char → Option (List Char)
  | [], s => some s
  | _ :: _, [] => none
  | p :: ps, c :: cs => if p.toLower = c.toLower then matchesIC ps cs else none

/-- Case-sensitive literal match of a pattern against a leading segment;
returns the remaining suffix on success. -/
def matchesEx : List Char → List Char → Option (List Char)
  | [], s => some s
  | _ :: _, [] => none
  | p :: ps, c :: cs => if p = c then matchesEx ps cs else none

/-- Word-character test on an optional character; absent characters count
as non-word, matching the regex word-boundary rule at the text edges. -/
def wordChOpt : Option Char → Bool
  | none => false
  | some c => isWordCh c

/-- Regex word boundary between two (optional) adjacent characters. -/
def boundOk (a b : Option Char) : Bool := wordChOpt a != wordChOpt b

/-- Bounded literal search: regex search of backslash-b pat backslash-b,
case-insensitive when ic is set.  prev is the character just before the
current scan position. -/
def searchBoundedAux (ic : Bool) (pat : List Char) : Option Char → List Char → Bool
  | prev, s =>
    (match (if ic then matchesIC pat s else matchesEx pat s) with
     | some rest => boundOk prev pat.head? && boundOk pat.getLast? rest.head?
     | none => false)
    || (match s with
        | [] => false
        | c :: r => searchBoundedAux ic pat (some c) r)

/-- Regex search of a word-bounded literal over a whole line. -/
def searchBounded (ic : Bool) (pat s : List Char) : Bool :=
  searchBoundedAux ic pat none s

/-- Regex search for any of the word-bounded literal alternatives. -/
def searchAnyBd (pats : List (List Char)) (s : List Char) : Bool :=
  pats.any (fun p => searchBounded false p s)

/-- Regex match (anchored at the start) of a literal followed by a word
boundary. -/
def matchStartBd (pat s : List Char) : Bool :=
  match matchesEx pat s with
  | some rest => boundOk pat.getLast? rest.head?
  | none => false

/-- Anchored match of any of the listed alternatives followed by a word
boundary. -/
def matchAnyStart (pats : List (List Char)) (s : List Char) : Bool :=
  pats.any (fun p => matchStartBd p s)

/-- Regex search of a word-bounded digit run, mirroring the search for
backslash-b digits backslash-b on the raw line. -/
def searchNumBdAux : Option Char → List Char → Bool
  | _, [] => false
  | prev, c :: r =>
    (c.isDigit && !wordChOpt prev && !wordChOpt ((r.dropWhile Char.isDigit).head?))
    || searchNumBdAux (some c) r

/-- Whole-line search for a word-bounded number. -/
def searchNumBd (s : List Char) : Bool := searchNumBdAux none s

/-- Anchored regex match of one or more word characters followed by a colon
at the end of the line. -/
def matchWordColon (s : List Char) : Bool :=
  !(s.takeWhile isWordCh).isEmpty && s.dropWhile isWordCh = [':']

/-- First alternative of the term regex: an uppercase letter, greedy
lowercase letters, one or more whitespace characters, an optional
uppercase letter, then greedy lowercase letters.  Returns the matched
text and the rest of the input. -/
def alt1 : List Char → Option (List Char × List Char)
  | [] => none
  | c :: rest =>
    if c.isUpper then
      let low1 := rest.takeWhile Char.isLower
      let r1 := rest.dropWhile Char.isLower
      let sp := r1.takeWhile isSpaceCh
      let r2 := r1.dropWhile isSpaceCh
      if sp.isEmpty then none
      else
        match r2 with
        | d :: r3 =>
          if d.isUpper then
            some (c :: low1 ++ sp ++ d :: r3.takeWhile Char.isLower,
                  r3.dropWhile Char.isLower)
          else
            some (c :: low1 ++ sp ++ r2.takeWhile Char.isLower,
                  r2.dropWhile Char.isLower)
        | [] => some (c :: low1 ++ sp, [])
    else none

/-- Second alternative of the term regex: an uppercase letter followed by
at least three lowercase letters, greedy. -/
def alt2 : List Char → Option (List Char × List Char)
  | [] => none
  | c :: rest =>
    if c.isUpper then
      let low := rest.takeWhile Char.isLower
      if 3 ≤ low.length then some (c :: low, rest.dropWhile Char.isLower) else none
    else none

/-- Scan for all non-overlapping matches of the capitalized-phrase regex,
left to right, preferring the first alternative, mirroring re.findall.
The first argument counts characters of the previous match still to be
skipped; a successful match at the current position consumes exactly its
own text, whose first character is the current one. -/
def findCapsAux : Nat → List Char → List (List Char)
  | _, [] => []
  | skip + 1, _ :: rest => findCapsAux skip rest
  | 0, c :: rest =>
    match alt1 (c :: rest) with
    | some mr => mr.1 :: findCapsAux (mr.1.length - 1) rest
    | none =>
      match alt2 (c :: rest) with
      | some mr => mr.1 :: findCapsAux (mr.1.length - 1) rest
      | none => findCapsAux 0 rest

/-- All matches of the capitalized-phrase regex of the extractor. -/
def findCaps (s : List Char) : List (List Char) := findCapsAux 0 s

/-- Stopword list of the fallback extraction path. -/
def stopWords : List (List Char) :=
  ["the", "and", "in", "with", "as", "is", "are", "was", "were", "now", "though",
   "introduction", "example", "consider", "ask", "what", "why", "how", "where", "when",
   "who", "however", "this", "approach", "proper", "significantly", "limited",
   "foundational"].map String.toList

/-- Domain anchors gating the fallback extraction path. -/
def fallbackAnchors : List (List Char) :=
  ["artificial", "machine", "deep", "symbolic", "neural"].map String.toList

/-- Domain anchors of the final term filter. -/
def termAnchors : List (List Char) :=
  ["intelligence", "learning", "reasoning", "networks"].map String.toList

/-- Fallback path of the extractor: lowercase alphabetic tokens of length
at least four, bounded by word boundaries, minus stopwords, kept only when
the whole lowercased text mentions one of the domain anchors. -/
def fallbackTerms (t : List Char) : List (List Char) :=
  let lt := lowerL t
  (wordRuns lt).filter (fun run =>
    run.all Char.isAlpha && 4 ≤ run.length &&
    !(stopWords.contains run) &&
    fallbackAnchors.any (fun k => containsSub lt k))

/-- Embedding of extract_key_terms from src/backend/flashcards.py on
character lists. -/
def extractTermsL (text : List Char) : List (List Char) :=
  let t := stripL text
  let terms := findCaps t
  let terms := if terms.isEmpty then fallbackTerms t else terms
  terms.filter (fun tm =>
    wordCount tm ≤ 2 && termAnchors.any (fun k => containsSub (lowerL tm) k))

/-- Public wrapper of extract_key_terms operating on strings. -/
def extract_key_terms (text : String) : List String :=
  (extractTermsL text.toList).map (fun l => String.mk l)

/-- Definitional keywords worth six points. -/
def defKeys : List (List Char) :=
  ["is a", "refers to", "means", "defined as", "represents", "emulate", "ability",
   "based on", "used to", "coined", "introduced", "recognized", "focus on"].map String.toList

/-- Comparison keywords worth five points. -/
def cmpKeys : List (List Char) :=
  ["difference", "contrast", "compare", "unlike", "whereas", "instead"].map String.toList

/-- Domain keywords worth five points. -/
def domainKeys : List (List Char) :=
  ["artificial intelligence", "machine learning", "deep learning",
   "symbolic reasoning", "neural networks"].map String.toList

/-- Unit tokens accompanying quantitative data. -/
def unitKeys : List (List Char) :=
  ["loc", "months", "person-month", "%", "accuracy"].map String.toList

/-- Transitional lead-in phrases. -/
def transKeys : List (List Char) :=
  ["let us", "now let", "consider", "for example", "suppose", "ask any",
   "pose the same"].map String.toList

/-- Interrogative starters. -/
def qWords : List (List Char) :=
  ["what", "why", "how", "where", "when", "who"].map String.toList

/-- Python endswith("?") on a character list. -/
def endsWithQm (l : List Char) : Bool := l.getLast? == some '?'

/-- Rule-based importance score of is_important_line, computed on the
stripped line, with the surrounding context lines and the line index. -/
def ruleScoreL (l : List Char) (lines : List (List Char)) (idx : Nat) : Int :=
  let ll := lowerL l
  (if searchAnyBd defKeys ll then 6 else 0)
  + (if searchAnyBd cmpKeys ll then 5 else 0)
  + (if domainKeys.any (fun k => containsSub ll k) then 5 else 0)
  + (if searchNumBd l && unitKeys.any (fun k => containsSub ll k) then 5 else 0)
  + (if decide (0 < idx) &&
        matchAnyStart transKeys (lowerL (lines.getD (idx - 1) [])) then 4 else 0)
  - (if matchAnyStart qWords ll && endsWithQm l then 7 else 0)
  - (if matchAnyStart transKeys ll then 6 else 0)
  - (if wordCount l < 6 then 4 else 0)
  - (if l = ("Introduction").toList || l = ("Conclusion").toList
        || matchWordColon l || startsWithL l ['#'] then 8 else 0)
  + (if (List.range' (idx - 5) (idx - (idx - 5))).any (fun i =>
        let prev := stripL (lines.getD i [])
        startsWithL prev ['#'] || prev = ("Artificial Intelligence").toList)
     then 2 else 0)

/-- Embedding of is_important_line from src/backend/flashcards.py.  The
optional classifier and vectorizer pair is modelled as an optional boolean
predicate on the stripped line text. -/
def isImportantLineL (oracle : Option (List Char → Bool))
    (line : List Char) (lines : List (List Char)) (idx : Nat) : Bool :=
  let l := stripL line
  if l.isEmpty then false
  else
    match oracle with
    | some f =>
      if ruleScoreL l lines idx ≤ 0 then false else f l
    | none => decide (3 < ruleScoreL l lines idx)

/-- Public wrapper of is_important_line operating on strings. -/
def is_important_line (oracle : Option (List Char → Bool))
    (line : String) (lines : List String) (idx : Nat) : Bool :=
  isImportantLineL oracle line.toList (lines.map String.toList) idx

/-- Rule score wrapper operating on strings; the line is stripped first,
exactly as is_important_line does before scoring. -/
def ruleScore (line : String) (lines : List String) (idx : Nat) : Int :=
  ruleScoreL (stripL line.toList) (lines.map String.toList) idx

/-- Keywords whose presence anywhere in the document selects the fixed
domain category. -/
def catKeys : List (List Char) :=
  ["artificial intelligence", "machine learning", "deep learning",
   "symbolic reasoning", "neural networks", "ai"].map String.toList

/-- Joins pieces with single spaces, mirroring Python " ".join. -/
def joinSp : List (List Char) → List Char
  | [] => []
  | [s] => s
  | s :: r :: rest => s ++ ' ' :: joinSp (r :: rest)

/-- Python str.strip("#"): remove leading and trailing hash characters. -/
def stripHash (l : List Char) : List Char :=
  ((l.dropWhile (· == '#')).reverse.dropWhile (· == '#')).reverse

/-- Scan of the category detector: return the first heading line, stripped
of hashes and whitespace, with the empty result replaced by General. -/
def detectScan : List (List Char) → List Char
  | [] => ("General").toList
  | l :: rest =>
    if startsWithL l ['#'] then
      let t := stripL (stripHash l)
      if t.isEmpty then ("General").toList else t
    else detectScan rest

/-- Embedding of detect_category from src/backend/flashcards.py on
character lists.  The term argument is lowered and stripped by the source
but never used afterwards. -/
def detectCategoryL (lines : List (List Char)) (term : List Char) : List Char :=
  let _ := stripL (lowerL term)
  let fullText := lowerL (joinSp lines)
  if catKeys.any (fun k => containsSub fullText k) then
    ("Artificial Intelligence").toList
  else detectScan lines

/-- Public wrapper of detect_category operating on strings. -/
def detect_category (lines : List String) (term : String) : String :=
  String.mk (detectCategoryL (lines.map String.toList) term.toList)

/-- Python content.split of the backslash-n separator, keeping empty
pieces. -/
def splitNl : List Char → List (List Char)
  | [] => [[]]
  | c :: rest =>
    if c = '\n' then [] :: splitNl rest
    else
      match splitNl rest with
      | p :: ps => (c :: p) :: ps
      | [] => [[c]]

/-- Splitter for the sentence regex: a whitespace run directly preceded by
a sentence-final punctuation mark separates pieces and is consumed.  The
accumulator holds the current piece reversed; the flag records that the
scan is inside a separating whitespace run. -/
def sentSplitAux (acc : List Char) (inSep : Bool) : List Char → List (List Char)
  | [] => [acc.reverse]
  | c :: rest =>
    if inSep then
      if isSpaceCh c then sentSplitAux acc true rest
      else sentSplitAux [c] false rest
    else if isSpaceCh c &&
        (match acc with
         | p :: _ => p = '.' || p = '!' || p = '?'
         | [] => false) then
      acc.reverse :: sentSplitAux [] true rest
    else sentSplitAux (c :: acc) false rest

/-- Sentence splitting of a line, mirroring re.split with a lookbehind for
sentence-final punctuation. -/
def sentSplit (l : List Char) : List (List Char) := sentSplitAux [] false l

/-- Python full split on a non-empty literal separator, scanning left to
right without overlap.  The accumulator holds the current piece reversed;
the counter holds how many characters of a found separator are still to be
consumed. -/
def pySplitAux (sep : List Char) : List Char → Nat → List Char → List (List Char)
  | acc, _, [] => [acc.reverse]
  | acc, skip + 1, _ :: rest => pySplitAux sep acc skip rest
  | acc, 0, c :: r =>
    if !sep.isEmpty && startsWithL (c :: r) sep then
      acc.reverse :: pySplitAux sep [] (sep.length - 1) r
    else pySplitAux sep (c :: acc) 0 r

/-- Python s.split(sep) for a non-empty separator. -/
def pySplitOn (sep s : List Char) : List (List Char) := pySplitAux sep [] 0 s

/-- Keywords marking a defining sentence during look-ahead. -/
def neuralAcc : List (List Char) := ["neural", "accuracy"].map String.toList

/-- Question text of the What-is template. -/
def mkWhatQ (t : List Char) : List Char := ("What is ").toList ++ t ++ ['?']

/-- Question text of the How-does template. -/
def mkHowQ (t : List Char) : List Char := ("How does ").toList ++ t ++ (" work?").toList

/-- Insertion-ordered map update: replace the value of an existing key in
place, otherwise append the binding, mirroring Python dict assignment. -/
def dictInsert (k : List Char) (v : List (List Char)) :
    List (List Char × List (List Char)) → List (List Char × List (List Char))
  | [] => [(k, v)]
  | q :: rest =>
    if q.1 = k then (k, v) :: rest else q :: dictInsert k v rest

/-- Python truthiness of the current-term variable, which is either absent
or a string. -/
def truthyTerm : Option (List Char) → Bool
  | none => false
  | some t => !t.isEmpty

/-- State of the question-and-answer accumulation loop. -/
structure QAState where
  qa : List (List Char × List (List Char))
  cur : Option (List Char)
  ans : List (List Char)

/-- Flush of the pending question before a new one starts. -/
def flushOld (st : QAState) : List (List Char × List (List Char)) :=
  if truthyTerm st.cur && !st.ans.isEmpty then
    dictInsert (mkWhatQ (st.cur.getD [])) st.ans st.qa
  else st.qa

/-- Look-ahead of the lead-in branch: scan the window for a defining
sentence that repeats the term or mentions an anchor keyword, replacing
the accumulated answer and stopping; otherwise append non-transitional
non-empty sentences. -/
def lookAhead1 (term : List Char) (sentences : List (List Char)) :
    List Nat → List (List Char) → List (List Char)
  | [], acc => acc
  | j :: rest, acc =>
    let ns := stripL (sentences.getD j [])
    if !ns.isEmpty && (searchBounded true term ns
        || neuralAcc.any (fun k => containsSub (lowerL ns) k)) then [ns]
    else if !ns.isEmpty && !matchAnyStart transKeys (lowerL ns) then
      lookAhead1 term sentences rest (acc ++ [ns])
    else lookAhead1 term sentences rest acc

/-- Look-ahead of the important branch: stop at the next important
non-list sentence, otherwise append sentences that are not empty, not
headings, not questions and not transitional. -/
def lookAhead2 (oracle : Option (List Char → Bool)) (sentences : List (List Char)) :
    List Nat → List (List Char) → List (List Char)
  | [], acc => acc
  | j :: rest, acc =>
    let ns := stripL (sentences.getD j [])
    if isImportantLineL oracle ns sentences j && !startsWithL ns ['-'] then acc
    else if !ns.isEmpty && !startsWithL ns ['#']
        && !matchAnyStart qWords (lowerL ns)
        && !matchAnyStart transKeys (lowerL ns) then
      lookAhead2 oracle sentences rest (acc ++ [ns])
    else lookAhead2 oracle sentences rest acc

/-- Window of indices examined by a look-ahead starting after position i. -/
def windowIdx (i len : Nat) : List Nat :=
  List.range' (i + 1) (min (i + 4) len - (i + 1))

/-- Processing of one extracted term of a lead-in (non-important)
sentence. -/
def procTerm1 (sentences : List (List Char)) (i : Nat) (sentence : List Char)
    (st : QAState) (term : List Char) : QAState :=
  if searchBounded true term sentence then
    let qa1 := flushOld st
    let ansNew := lookAhead1 term sentences (windowIdx i sentences.length) []
    let qa2 :=
      if !term.isEmpty && !ansNew.isEmpty then dictInsert (mkWhatQ term) ansNew qa1
      else qa1
    ⟨qa2, some term, ansNew⟩
  else st

/-- Processing of one extracted term of an important sentence. -/
def procTerm2 (oracle : Option (List Char → Bool)) (sentences : List (List Char))
    (i : Nat) (sentence : List Char) (st : QAState) (term : List Char) : QAState :=
  if searchBounded true term sentence then
    let qa1 := flushOld st
    let ansNew := lookAhead2 oracle sentences (windowIdx i sentences.length) [sentence]
    let qa2 :=
      if !term.isEmpty && !ansNew.isEmpty then dictInsert (mkWhatQ term) ansNew qa1
      else qa1
    ⟨qa2, some term, ansNew⟩
  else st

/-- Python str.strip("-"): remove leading and trailing dashes. -/
def stripDash (l : List Char) : List Char :=
  ((l.dropWhile (· == '-')).reverse.dropWhile (· == '-')).reverse

/-- Processing of a list-item sentence (subtopic branch of the source). -/
def procSub (oracle : Option (List Char → Bool)) (sentences : List (List Char))
    (i : Nat) (sentence : List Char) (st : QAState) : QAState :=
  let subtopic := stripL (stripDash sentence)
  match extractTermsL subtopic with
  | [] => st
  | t0 :: _ =>
    let ansNew := lookAhead2 oracle sentences (windowIdx i sentences.length) [subtopic]
    if !t0.isEmpty && !ansNew.isEmpty then
      ⟨dictInsert (mkHowQ t0) ansNew st.qa, some t0, []⟩
    else ⟨st.qa, some t0, ansNew⟩

/-- One step of the question-and-answer loop at sentence index i. -/
def qaStep (oracle : Option (List Char → Bool)) (sentences : List (List Char))
    (st : QAState) (i : Nat) : QAState :=
  let sentence := stripL (sentences.getD i [])
  if sentence.isEmpty then st
  else
    let terms := extractTermsL sentence
    if !terms.isEmpty && !isImportantLineL oracle sentence sentences i then
      terms.foldl (procTerm1 sentences i sentence) st
    else if isImportantLineL oracle sentence sentences i then
      if terms.isEmpty then st
      else terms.foldl (procTerm2 oracle sentences i sentence) st
    else if startsWithL sentence ['-'] && isImportantLineL oracle sentence sentences i then
      procSub oracle sentences i sentence st
    else st

/-- Sentence segmentation of the whole content: split into lines, strip
each, drop blank lines, split the rest into sentences. -/
def segment (content : List Char) : List (List Char) :=
  (splitNl content).bind (fun ln =>
    let l := stripL ln
    if l.isEmpty then [] else sentSplit l)

/-- Embedding of generate_questions_and_answers from
src/backend/flashcards.py on character lists; returns the
insertion-ordered question map. -/
def genQAL (oracle : Option (List Char → Bool)) (content : List Char) :
    List (List Char × List (List Char)) :=
  let sentences := segment content
  let st := (List.range sentences.length).foldl (qaStep oracle sentences) ⟨[], none, []⟩
  flushOld st

/-- Public wrapper of generate_questions_and_answers operating on
strings. -/
def generate_questions_and_answers (oracle : Option (List Char → Bool))
    (content : String) : List (String × List String) :=
  (genQAL oracle content.toList).map (fun p => (String.mk p.1, p.2.map String.mk))

/-- Flashcard record of src/backend/models.py: front, back and category
strings. -/
structure Flashcard where
  front : String
  back : String
  category : String
deriving DecidableEq, Repr

/-- Parsing of a question text back into its term, mirroring the split
logic of generate_flashcards; returns none when the source would skip the
question. -/
def parseTerm (question : List Char) : Option (List Char) :=
  if containsSub question (("What is ").toList) then
    let p1 := (pySplitOn (("What is ").toList) question).getD 1 []
    let t := stripL ((pySplitOn ['?'] p1).getD 0 [])
    if t.isEmpty then none else some t
  else if containsSub question (("How does ").toList) then
    let p1 := (pySplitOn (("How does ").toList) question).getD 1 []
    let t := stripL ((pySplitOn ((" work?").toList) p1).getD 0 [])
    if t.isEmpty then none else some t
  else none

/-- Cleaned answer of a card: join the accumulated sentences, split into
sentences again, and pick the first sentence mentioning the term, else
the first sentence mentioning an anchor keyword, else the joined text,
with a literal fallback when the sentence list is empty. -/
def mkBack (term : List Char) (ansList : List (List Char)) : List Char :=
  let answerText := stripL (joinSp ansList)
  let pieces := sentSplit answerText
  match pieces.find? (fun s => containsSub (lowerL s) (lowerL term)) with
  | some s => s
  | none =>
    match pieces.find? (fun s =>
        neuralAcc.any (fun k => containsSub (lowerL s) k)) with
    | some s => s
    | none => if !pieces.isEmpty then answerText else ("No definition available.").toList

/-- Accumulating step of the card-assembly loop: acc holds the cards so
far and the set of question texts already used. -/
def buildStep (content : List Char)
    (acc : List Flashcard × List (List Char))
    (item : List Char × List (List Char)) : List Flashcard × List (List Char) :=
  if acc.2.contains item.1 then acc
  else
    match parseTerm item.1 with
    | none => acc
    | some term =>
      let category := detectCategoryL (splitNl content) term
      let back := mkBack term item.2
      (acc.1 ++ [⟨String.mk item.1, String.mk back, String.mk category⟩],
       acc.2 ++ [item.1])

/-- Card list before the cap, in encounter order of the question map. -/
def buildCardsL (oracle : Option (List Char → Bool)) (content : List Char) :
    List Flashcard :=
  ((genQAL oracle content).foldl (buildStep content) ([], [])).1

/-- Embedding of generate_flashcards from src/backend/flashcards.py on
character lists: assemble the cards, then truncate to twenty. -/
def genFlashL (oracle : Option (List Char → Bool)) (content : List Char) :
    List Flashcard :=
  let fc := buildCardsL oracle content
  if 20 < fc.length then fc.take 20 else fc

/-- Public wrapper of generate_flashcards operating on strings. -/
def generate_flashcards (oracle : Option (List Char → Bool))
    (content : String) : List Flashcard :=
  genFlashL oracle content.toList

/-- Card list before the cap, the uncapped output of the generator. -/
def uncappedCards (oracle : Option (List Char → Bool))
    (content : String) : List Flashcard :=
  buildCardsL oracle content.toList

/-- Review card of src/backend/spaced_repetition.py: a record with an
interval and an ease factor.  Python float arithmetic on these decimal
constants is modelled over the rationals. -/
structure ReviewCard where
  interval : ℚ
  ease : ℚ
deriving DecidableEq, Repr

/-- Embedding of update_card from src/backend/spaced_repetition.py, the
SM-2 style interval and ease update. -/
def update_card (card : ReviewCard) (quality : ℤ) : ReviewCard :=
  if 3 ≤ quality then
    { interval := if card.interval = 1 then 6 else card.interval * card.ease,
      ease := max 1.3 (card.ease + 0.1 -
        ((5 - quality : ℤ) : ℚ) * (0.08 + ((5 - quality : ℤ) : ℚ) * 0.02)) }
  else { card with interval := 1 }

/-- Modelled from the spec: the source under src has no cross-linker and
its Flashcard record (src/backend/models.py) carries no links field; this
card shape follows the data model of the spec, a flashcard together with
an ordered sequence of related-card identifiers. -/
structure LinkedCard where
  front : String
  back : String
  category : String
  links : List String
deriving DecidableEq, Repr

/-- Front and back of a linked card, the only data the cross-linker
inspects. -/
def fbPair (c : LinkedCard) : String × String := (c.front, c.back)

/-- Modelled from the spec: shared-term test of the cross-linker, a
non-empty intersection of the key terms extracted from the concatenation
of front and back of each card. -/
def sharesTermFB (a b : String × String) : Bool :=
  (extract_key_terms (a.1 ++ a.2)).any
    (fun t => (extract_key_terms (b.1 ++ b.2)).contains t)

/-- Modelled from the spec: link texts appended to the card at index i,
the front text of every other card sharing a term with it. -/
def addLinksFB (fbl : List (String × String)) (i : Nat) (me : String × String) :
    List String :=
  ((fbl.enum.filter (fun jd => jd.1 != i && sharesTermFB me jd.2)).map
    (fun jd => jd.2.1))

/-- Modelled from the spec: one pass of the cross-linker over the tail of
the card list, with i the index of the first element. -/
def crossLinkAux (fbl : List (String × String)) : Nat → List LinkedCard → List LinkedCard
  | _, [] => []
  | i, c :: rest =>
    { c with links := c.links ++ addLinksFB fbl i (fbPair c) }
      :: crossLinkAux fbl (i + 1) rest

/-- Modelled from the spec: the cross-linker of section 4.5, appending to
every card the front of every distinct card sharing an extracted term,
without deduplication. -/
def crossLink (cards : List LinkedCard) : List LinkedCard :=
  crossLinkAux (cards.map fbPair) 0 cards

/-- Claim reading of the category detector, following the words of the
specification sentence: outside the domain-keyword case the detector
returns the text of the heading when a heading exists, and the default
category only when no heading exists. -/
def detectCategorySpec (lines : List String) (term : String) : String :=
  let _ := term
  let ll := lines.map String.toList
  let fullText := lowerL (joinSp ll)
  if catKeys.any (fun k => containsSub fullText k) then "Artificial Intelligence"
  else
    match ll.find? (fun l => startsWithL l ['#']) with
    | some h => String.mk (stripL (stripHash h))
    | none => "General"

/-- Concrete pair of linked cards sharing the term Machine Learning,
with empty link lists. -/
def samplePair : List LinkedCard :=
  [⟨"What is Machine Learning?", "Machine Learning is a field", "AI", []⟩,
   ⟨"What is Deep Learning?", "Deep Learning extends Machine Learning", "AI", []⟩]

/-- Keys of an association list. -/
def keysOf (m : List (List Char × List (List Char))) : List (List Char) :=
  m.map Prod.fst

/-- Shape of every question key the synthesizer produces: one of the two
question templates around a non-empty term. -/
def GoodKey (k : List Char) : Prop :=
  ∃ t, t ≠ [] ∧ (k = mkWhatQ t ∨ k = mkHowQ t)

/-- A character list containing at least one non-whitespace character. -/
def HasInk (s : List Char) : Prop := ∃ c ∈ s, isSpaceCh c = false

/-- Invariant of the question map: every key is template-shaped and every
value is a non-empty list of sentences each containing ink. -/
def MapGood (m : List (List Char × List (List Char))) : Prop :=
  ∀ p ∈ m, GoodKey p.1 ∧ p.2 ≠ [] ∧ ∀ s ∈ p.2, HasInk s

/-- Invariant of the loop state: the map is good and every accumulated
answer sentence contains ink. -/
def StGood (st : QAState) : Prop :=
  MapGood st.qa ∧ ∀ s ∈ st.ans, HasInk s

/-- Shape of every card the generator assembles: a template-shaped front
around a non-empty term, and a non-empty back. -/
def CardOk (c : Flashcard) : Prop :=
  (∃ t : List Char, t ≠ [] ∧
    (c.front = String.mk (mkWhatQ t) ∨ c.front = String.mk (mkHowQ t)))
  ∧ c.back ≠ ""

/-! Theorems about the embedded pipeline. -/

/-- C1: generate_flashcards returns at most twenty cards, and its result
is exactly the first twenty cards, in encounter order, of the uncapped
card list, so cards beyond the cap are silently dropped rather than an
error. -/
theorem generate_flashcards_cap (oracle : Option (List Char → Bool)) (content : String) :
    (generate_flashcards oracle content).length ≤ 20 ∧
    generate_flashcards oracle content = (uncappedCards oracle content).take 20 := by
  unfold generate_flashcards genFlashL uncappedCards
  by_cases h : 20 < (buildCardsL oracle content.toList).length
  · constructor
    · simp only [h, if_true]
      simp [List.length_take]
    · simp [h]
  · simp only [h, if_false]
    refine ⟨by omega, ?_⟩
    exact (List.take_of_length_le (by omega)).symm

/-- C7: update_card follows the SM-2 rule of the source: on a quality of
at least three, an interval of one becomes six and any other interval is
multiplied by the ease factor, while the new ease factor is bounded below
by 1.3; on a quality below three the interval resets to one. -/
theorem update_card_sm2 (card : ReviewCard) (quality : ℤ) :
    (3 ≤ quality →
      ((card.interval = 1 → (update_card card quality).interval = 6)
       ∧ (card.interval ≠ 1 →
            (update_card card quality).interval = card.interval * card.ease)
       ∧ (1.3 : ℚ) ≤ (update_card card quality).ease))
    ∧ (quality < 3 → (update_card card quality).interval = 1) := by
  constructor
  · intro hq
    unfold update_card
    simp only [hq, if_true]
    refine ⟨fun h1 => by simp [h1], fun h1 => by simp [h1], ?_⟩
    exact le_max_left _ _
  · intro hq
    unfold update_card
    have : ¬ (3 ≤ quality) := by omega
    simp [this]

/-- C7 witness: concrete SM-2 updates through the theorem. -/
theorem update_card_sm2_witness :
    (update_card ⟨1, 5/2⟩ 4).interval = 6
    ∧ (1.3 : ℚ) ≤ (update_card ⟨1, 5/2⟩ 4).ease
    ∧ (update_card ⟨7, 2⟩ 1).interval = 1 :=
  ⟨((update_card_sm2 ⟨1, 5/2⟩ 4).1 (by norm_num)).1 rfl,
   ((update_card_sm2 ⟨1, 5/2⟩ 4).1 (by norm_num)).2.2,
   (update_card_sm2 ⟨7, 2⟩ 1).2 (by norm_num)⟩

/-- C9: with no classifier configured the generator is deterministic, a
pure function of the input text: any two runs over the same content give
the same card list, with equal fronts, backs and categories in the same
order. -/
theorem generate_flashcards_deterministic (content : String)
    (r1 r2 : List Flashcard)
    (h1 : r1 = generate_flashcards none content)
    (h2 : r2 = generate_flashcards none content) : r1 = r2 := by
  rw [h1, h2]

/-- C9 witness: two runs over the empty content agree. -/
theorem generate_flashcards_deterministic_witness :
    ([] : List Flashcard) = [] :=
  generate_flashcards_deterministic "" [] [] (by decide) (by decide)

/-- C3 counterexample: with a classifier loaded that always answers true,
a whitespace-only line whose rule score is positive (two, from a
transitional previous line and a heading in the context window, minus the
short-line penalty) still yields false, because the source returns false
for blank lines before consulting either the score gate or the
classifier; the claim instead requires the classifier verdict whenever
the score is positive. -/
theorem is_important_line_blank_gate_cex :
    is_important_line (some (fun _ => true)) "" ["# T", "consider this", ""] 2 = false
    ∧ ruleScore "" ["# T", "consider this", ""] 2 = 2 := by
  exact ⟨by decide, by decide⟩

/-- C3 as amended: for lines that are non-blank after stripping, a loaded
classifier is overridden to false exactly when the rule score is at most
zero and decides otherwise, and without a classifier the verdict is the
rule score exceeding three; blank lines yield false unconditionally,
without consulting the score gate or the classifier. -/
theorem is_important_line_policy (oracle : Option (List Char → Bool))
    (line : String) (lines : List String) (idx : Nat) :
    (stripL line.toList = [] → is_important_line oracle line lines idx = false)
    ∧ (stripL line.toList ≠ [] →
        (∀ f, oracle = some f →
          is_important_line oracle line lines idx =
            if ruleScore line lines idx ≤ 0 then false
            else f (stripL line.toList))
        ∧ (oracle = none →
          is_important_line oracle line lines idx =
            decide (3 < ruleScore line lines idx))) := by
  constructor
  · intro h
    have hd : stripL line.data = [] := h
    have hemp : (stripL line.data).isEmpty = true := by simpa using hd
    simp [is_important_line, isImportantLineL, hemp]
  · intro h
    have hne : ¬ ((stripL line.toList).isEmpty = true) := by
      simpa using h
    constructor
    · intro f hf
      subst hf
      simp only [is_important_line, isImportantLineL, ruleScore]
      rw [if_neg hne]
    · intro hf
      subst hf
      simp only [is_important_line, isImportantLineL, ruleScore]
      rw [if_neg hne]

/-- C3 witness: a concrete definitional line without a classifier follows
the rule-only verdict, and with a constant classifier follows the gate. -/
theorem is_important_line_policy_witness :
    is_important_line none
      "Machine Learning is a subset of AI that refers to systems which learn from data."
      [] 0
      = decide (3 < ruleScore
          "Machine Learning is a subset of AI that refers to systems which learn from data."
          [] 0) :=
  ((is_important_line_policy none
      "Machine Learning is a subset of AI that refers to systems which learn from data."
      [] 0).2 (by decide)).2 rfl

/-- C5 helper: the heading scan of the category detector returns the
first heading of the document, stripped of hash marks and whitespace,
defaulting to General when the text is empty or no heading exists. -/
theorem detectScanFind (ls : List (List Char)) :
    detectScan ls =
      (match ls.find? (fun l => startsWithL l ['#']) with
       | some h =>
           if (stripL (stripHash h)).isEmpty then ("General").toList
           else stripL (stripHash h)
       | none => ("General").toList) := by
  induction ls with
  | nil => rfl
  | cons l rest ih =>
    by_cases h : startsWithL l ['#'] = true
    · simp [detectScan, List.find?, h]
    · simp only [detectScan, List.find?, h, if_false, Bool.false_eq_true]
      exact ih

/-- C5 counterexample: on the single line consisting of one hash mark and
with no domain keyword present, the claim reading of the detector (return
the heading text, defaulting only when no heading exists) yields the
empty string, while the source yields General, because the source also
defaults whenever the heading text is empty after stripping. -/
theorem detect_category_empty_heading_cex :
    detectCategorySpec ["#"] "x" ≠ detect_category ["#"] "x" := by
  decide

/-- C5 as amended: detect_category returns the fixed domain category when
any configured keyword occurs in the lowercased whole-document text;
otherwise it returns the text of the first heading line, stripped of hash
marks and whitespace, falling back to General when no heading exists or
when that text is empty. -/
theorem detect_category_policy (lines : List String) (term : String) :
    detect_category lines term =
      (if catKeys.any (fun k =>
          containsSub (lowerL (joinSp (lines.map String.toList))) k)
       then "Artificial Intelligence"
       else
        match (lines.map String.toList).find? (fun l => startsWithL l ['#']) with
        | some h =>
            if (stripL (stripHash h)).isEmpty then "General"
            else String.mk (stripL (stripHash h))
        | none => "General") := by
  unfold detect_category detectCategoryL
  by_cases hk : catKeys.any (fun k =>
      containsSub (lowerL (joinSp (lines.map String.toList))) k) = true
  · simp only [hk, if_true]
    rfl
  · simp only [hk, if_false, Bool.false_eq_true, detectScanFind]
    cases hf : (lines.map String.toList).find? (fun l => startsWithL l ['#']) with
    | none => rfl
    | some h =>
      by_cases he : (stripL (stripHash h)).isEmpty = true
      · simp [he]
      · simp [he]

/-- C6 counterexample: the extractor performs no deduplication; a text
repeating a capitalized term verbatim yields that term twice, so the
result is not a sequence of distinct terms. -/
theorem extract_key_terms_not_distinct_cex :
    extract_key_terms "Machine Learning and Machine Learning"
      = ["Machine Learning", "Machine Learning"]
    ∧ ¬ (extract_key_terms "Machine Learning and Machine Learning").Nodup := by
  exact ⟨by decide, by decide⟩

/-- C6 as amended: extract_key_terms returns terms in encounter order
without removing duplicates on either path, and every returned term has
at most two words and contains a configured anchor keyword. -/
theorem extract_key_terms_shape (text : String) (t : String)
    (h : t ∈ extract_key_terms text) :
    wordCount t.toList ≤ 2
    ∧ termAnchors.any (fun k => containsSub (lowerL t.toList) k) = true := by
  unfold extract_key_terms at h
  obtain ⟨l, hl, rfl⟩ := List.mem_map.mp h
  simp only [extractTermsL] at hl
  have hp := (List.mem_filter.mp hl).2
  simp only [Bool.and_eq_true, decide_eq_true_eq] at hp
  exact ⟨hp.1, hp.2⟩

/-- C6 witness: a concrete extracted term has at most two words and
contains an anchor keyword. -/
theorem extract_key_terms_shape_witness :
    wordCount ("Machine Learning").toList ≤ 2
    ∧ termAnchors.any (fun k =>
        containsSub (lowerL ("Machine Learning").toList) k) = true :=
  extract_key_terms_shape "Machine Learning is a subset" "Machine Learning" (by decide)

/-- C4 helper: cross-linking changes only the link lists, never the
fronts or backs the shared-term test reads. -/
theorem crossLinkAuxFb (fbl : List (String × String)) :
    ∀ (i : Nat) (cs : List LinkedCard),
      (crossLinkAux fbl i cs).map fbPair = cs.map fbPair := by
  intro i cs
  induction cs generalizing i with
  | nil => rfl
  | cons c rest ih =>
    simp only [crossLinkAux, List.map_cons, ih]
    rfl

/-- C4 helper: a second linking pass over the output of a first pass on
cards with empty links appends exactly the same additions again, doubling
every link count. -/
theorem crossLinkAuxDouble (fbl : List (String × String)) :
    ∀ (cs : List LinkedCard) (i : Nat), (∀ c ∈ cs, c.links = []) →
      (crossLinkAux fbl i (crossLinkAux fbl i cs)).map (fun c => c.links.length)
        = (crossLinkAux fbl i cs).map (fun c => 2 * c.links.length) := by
  intro cs
  induction cs with
  | nil =>
    intro i h
    rfl
  | cons c rest ih =>
    intro i h
    have hc : c.links = [] := h c (by simp)
    have hrest : ∀ x ∈ rest, x.links = [] := fun x hx => h x (by simp [hx])
    simp only [crossLinkAux, List.map_cons, List.cons.injEq]
    constructor
    · show (({ c with links := c.links ++ addLinksFB fbl i (fbPair c) }).links
          ++ addLinksFB fbl i (fbPair c)).length = _
      simp [hc, two_mul]
    · exact ih (i + 1) hrest

/-- C4: in the modelled data shape every card carries a links sequence,
and running the cross-linker twice on a fixed card set whose links start
empty doubles every link count: each pass appends, per card, the front of
every other card sharing an extracted term, without deduplication. -/
theorem crossLink_twice_doubles (cards : List LinkedCard)
    (h : ∀ c ∈ cards, c.links = []) :
    (crossLink (crossLink cards)).map (fun c => c.links.length)
      = ((crossLink cards).map (fun c => c.links.length)).map (fun n => 2 * n) := by
  unfold crossLink
  rw [crossLinkAuxFb]
  rw [crossLinkAuxDouble _ cards 0 h]
  rw [List.map_map]
  rfl

/-- C4 witness: two concrete cards sharing the term Machine Learning
double their link counts on a second pass. -/
theorem crossLink_twice_doubles_witness :
    List.map (fun c => c.links.length) (crossLink (crossLink samplePair))
    = List.map (fun n => 2 * n)
        (List.map (fun c => c.links.length) (crossLink samplePair)) :=
  crossLink_twice_doubles samplePair (by decide)

/-- Helper: the result of dropWhile is empty or starts with an element
refuting the predicate. -/
theorem dropWhileHead {α : Type} (p : α → Bool) (l : List α) :
    l.dropWhile p = [] ∨ ∃ c t, l.dropWhile p = c :: t ∧ p c = false := by
  induction l with
  | nil => exact Or.inl rfl
  | cons a as ih =>
    by_cases h : p a = true
    · simpa [List.dropWhile, h] using ih
    · right
      exact ⟨a, as, by simp [List.dropWhile, h], by simpa using h⟩

/-- Helper: a non-empty stripped string contains a non-whitespace
character. -/
theorem stripHasInk (y : List Char) (h : stripL y ≠ []) : HasInk (stripL y) := by
  unfold stripL at *
  rcases dropWhileHead isSpaceCh ((y.dropWhile isSpaceCh).reverse) with h0 | ⟨c, t, heq, hc⟩
  · rw [h0] at h
    simp at h
  · rw [heq]
    exact ⟨c, by simp, hc⟩

/-- Helper: a string stripping to nothing is all whitespace. -/
theorem stripEqNilAllSpace (y : List Char) (h : stripL y = []) :
    ∀ c ∈ y, isSpaceCh c = true := by
  unfold stripL at h
  have h1 : (y.dropWhile isSpaceCh).reverse.dropWhile isSpaceCh = [] := by
    simpa using h
  have h2 : ∀ c ∈ (y.dropWhile isSpaceCh).reverse, isSpaceCh c = true :=
    List.dropWhile_eq_nil_iff.mp h1
  intro c hc
  rw [← List.takeWhile_append_dropWhile (p := isSpaceCh) (l := y)] at hc
  rcases List.mem_append.mp hc with h3 | h3
  · exact List.mem_takeWhile_imp h3
  · exact h2 c (by simpa using h3)

/-- Helper: an all-whitespace string strips to nothing. -/
theorem allSpaceStripNil (y : List Char) (h : ∀ c ∈ y, isSpaceCh c = true) :
    stripL y = [] := by
  unfold stripL
  have h1 : y.dropWhile isSpaceCh = [] := List.dropWhile_eq_nil_iff.mpr h
  simp [h1]

/-- Helper: a string containing ink does not strip to nothing. -/
theorem inkStripNe (y : List Char) (h : HasInk y) : stripL y ≠ [] := by
  intro hnil
  obtain ⟨c, hc, hcs⟩ := h
  have := stripEqNilAllSpace y hnil c hc
  rw [this] at hcs
  cases hcs

/-- Helper: characters of any member piece appear in the joined text. -/
theorem memJoinSp : ∀ (l : List (List Char)) (s : List Char), s ∈ l →
    ∀ c ∈ s, c ∈ joinSp l := by
  intro l
  induction l with
  | nil =>
    intro s hs
    simp at hs
  | cons a rest ih =>
    intro s hs c hc
    match rest with
    | [] =>
      have : s = a := by simpa using hs
      subst this
      simpa [joinSp] using hc
    | r :: rs =>
      rcases List.mem_cons.mp hs with rfl | hs2
      · exact List.mem_append.mpr (Or.inl hc)
      · refine List.mem_append.mpr (Or.inr ?_)
        exact List.mem_cons_of_mem _ (ih s hs2 c hc)

/-- Helper: containment of a non-empty pattern forces a non-empty text. -/
theorem containsSubNe (s pat : List Char) (hp : pat ≠ [])
    (h : containsSub s pat = true) : s ≠ [] := by
  intro hs
  subst hs
  match pat with
  | [] => exact hp rfl
  | p :: ps => simp [containsSub, startsWithL] at h

/-- Helper: members of an updated map are the new binding or old
members. -/
theorem memDictInsert (k : List Char) (v : List (List Char)) :
    ∀ (m : List (List Char × List (List Char))) (p : List Char × List (List Char)),
      p ∈ dictInsert k v m → p = (k, v) ∨ p ∈ m := by
  intro m
  induction m with
  | nil =>
    intro p hp
    simp only [dictInsert] at hp
    exact Or.inl (by simpa using hp)
  | cons q rest ih =>
    intro p hp
    simp only [dictInsert] at hp
    split at hp
    · rcases List.mem_cons.mp hp with rfl | hp2
      · exact Or.inl rfl
      · exact Or.inr (List.mem_cons_of_mem _ hp2)
    · rcases List.mem_cons.mp hp with rfl | hp2
      · exact Or.inr (List.mem_cons_self _ _)
      · rcases ih p hp2 with h1 | h1
        · exact Or.inl h1
        · exact Or.inr (List.mem_cons_of_mem _ h1)

/-- Helper: updating a good map with a good key and a good value keeps it
good. -/
theorem mapGoodInsert (m : List (List Char × List (List Char))) (hm : MapGood m)
    (k : List Char) (v : List (List Char)) (hk : GoodKey k)
    (hv : v ≠ [] ∧ ∀ s ∈ v, HasInk s) : MapGood (dictInsert k v m) := by
  intro p hp
  rcases memDictInsert k v m p hp with rfl | h1
  · exact ⟨hk, hv⟩
  · exact hm p h1

/-- Helper: flushing the pending question of a good state keeps the map
good. -/
theorem flushOldGood (st : QAState) (h : StGood st) : MapGood (flushOld st) := by
  unfold flushOld
  by_cases hc : (truthyTerm st.cur && !st.ans.isEmpty) = true
  · rw [if_pos hc]
    obtain ⟨h1, h2⟩ := (Bool.and_eq_true _ _).mp hc
    match hcur : st.cur with
    | none =>
      rw [hcur] at h1
      cases h1
    | some t =>
      rw [hcur] at h1
      have htne : t ≠ [] := by simpa [truthyTerm] using h1
      have hane : st.ans ≠ [] := by simpa using h2
      exact mapGoodInsert st.qa h.1 _ st.ans ⟨t, htne, Or.inl rfl⟩ ⟨hane, h.2⟩
  · rw [if_neg hc]
    exact h.1

/-- Helper: the lead-in look-ahead only ever returns sentences with ink,
given an accumulator of sentences with ink. -/
theorem lookAhead1Ink (term : List Char) (sents : List (List Char)) :
    ∀ (js : List Nat) (acc : List (List Char)), (∀ s ∈ acc, HasInk s) →
      ∀ s ∈ lookAhead1 term sents js acc, HasInk s := by
  intro js
  induction js with
  | nil =>
    intro acc hacc s hs
    exact hacc s hs
  | cons j rest ih =>
    intro acc hacc s hs
    simp only [lookAhead1] at hs
    split at hs
    · next hcond =>
      have h1 : ¬ (stripL (sents.getD j [])).isEmpty = true :=
        by simpa using ((Bool.and_eq_true _ _).mp hcond).1
      have h2 : stripL (sents.getD j []) ≠ [] := by simpa using h1
      have : s = stripL (sents.getD j []) := by simpa using hs
      subst this
      exact stripHasInk _ h2
    · split at hs
      · next hcond =>
        refine ih (acc ++ [stripL (sents.getD j [])]) ?_ s hs
        intro x hx
        rcases List.mem_append.mp hx with h1 | h1
        · exact hacc x h1
        · have h2 : ¬ (stripL (sents.getD j [])).isEmpty = true :=
            by simpa using ((Bool.and_eq_true _ _).mp hcond).1
          have : x = stripL (sents.getD j []) := by simpa using h1
          subst this
          exact stripHasInk _ (by simpa using h2)
      · exact ih acc hacc s hs

/-- Helper: the important-branch look-ahead only ever returns sentences
with ink, given an accumulator of sentences with ink. -/
theorem lookAhead2Ink (oracle : Option (List Char → Bool)) (sents : List (List Char)) :
    ∀ (js : List Nat) (acc : List (List Char)), (∀ s ∈ acc, HasInk s) →
      ∀ s ∈ lookAhead2 oracle sents js acc, HasInk s := by
  intro js
  induction js with
  | nil =>
    intro acc hacc s hs
    exact hacc s hs
  | cons j rest ih =>
    intro acc hacc s hs
    simp only [lookAhead2] at hs
    split at hs
    · exact hacc s hs
    · split at hs
      · next hcond =>
        refine ih (acc ++ [stripL (sents.getD j [])]) ?_ s hs
        intro x hx
        rcases List.mem_append.mp hx with h1 | h1
        · exact hacc x h1
        · have h2 : stripL (sents.getD j []) ≠ [] := by
            intro hnil
            rw [hnil] at hcond
            simp at hcond
          have : x = stripL (sents.getD j []) := by simpa using h1
          subst this
          exact stripHasInk _ h2
      · exact ih acc hacc s hs

/-- Helper: processing one term of a lead-in sentence preserves the state
invariant. -/
theorem procTerm1Good (sents : List (List Char)) (i : Nat) (sentence : List Char) :
    ∀ (st : QAState) (term : List Char), StGood st →
      StGood (procTerm1 sents i sentence st term) := by
  intro st term h
  simp only [procTerm1]
  split
  · have hink : ∀ s ∈ lookAhead1 term sents (windowIdx i sents.length) [], HasInk s :=
      lookAhead1Ink term sents _ [] (by intro x hx; simp at hx)
    constructor
    · show MapGood (if _ then _ else _)
      split
      · next hcond =>
        obtain ⟨h1, h2⟩ := (Bool.and_eq_true _ _).mp hcond
        refine mapGoodInsert _ (flushOldGood st h) _ _ ⟨term, by simpa using h1, Or.inl rfl⟩
          ⟨by simpa using h2, hink⟩
      · exact flushOldGood st h
    · exact hink
  · exact h

/-- Helper: processing one term of an important sentence preserves the
state invariant, given the seed sentence has ink. -/
theorem procTerm2Good (oracle : Option (List Char → Bool)) (sents : List (List Char))
    (i : Nat) (sentence : List Char) (hsent : HasInk sentence) :
    ∀ (st : QAState) (term : List Char), StGood st →
      StGood (procTerm2 oracle sents i sentence st term) := by
  intro st term h
  simp only [procTerm2]
  split
  · have hink : ∀ s ∈ lookAhead2 oracle sents (windowIdx i sents.length) [sentence],
        HasInk s := by
      refine lookAhead2Ink oracle sents _ [sentence] ?_
      intro x hx
      have : x = sentence := by simpa using hx
      subst this
      exact hsent
    constructor
    · show MapGood (if _ then _ else _)
      split
      · next hcond =>
        obtain ⟨h1, h2⟩ := (Bool.and_eq_true _ _).mp hcond
        refine mapGoodInsert _ (flushOldGood st h) _ _ ⟨term, by simpa using h1, Or.inl rfl⟩
          ⟨by simpa using h2, hink⟩
      · exact flushOldGood st h
    · exact hink
  · exact h

/-- Helper: folding a state-invariant-preserving step over any list
preserves the invariant. -/
theorem foldlGood {α : Type} (f : QAState → α → QAState)
    (hf : ∀ st a, StGood st → StGood (f st a)) :
    ∀ (l : List α) (st : QAState), StGood st → StGood (l.foldl f st) := by
  intro l
  induction l with
  | nil =>
    intro st h
    exact h
  | cons a rest ih =>
    intro st h
    exact ih (f st a) (hf st a h)

/-- Helper: one loop step preserves the state invariant; the subtopic
branch of the source is unreachable because its condition repeats the
importance test refuted by the preceding branch. -/
theorem qaStepGood (oracle : Option (List Char → Bool)) (sents : List (List Char))
    (st : QAState) (i : Nat) (h : StGood st) : StGood (qaStep oracle sents st i) := by
  simp only [qaStep]
  split
  · exact h
  · next hne =>
    split
    · exact foldlGood _ (procTerm1Good sents i _) _ st h
    · split
      · split
        · exact h
        · have hsent : HasInk (stripL (sents.getD i [])) :=
            stripHasInk _ (by simpa using hne)
          exact foldlGood _ (procTerm2Good oracle sents i _ hsent) _ st h
      · next himp =>
        have himp2 : isImportantLineL oracle (stripL (sents.getD i [])) sents i = false :=
          by simpa using himp
        rw [himp2]
        simp only [Bool.and_false, Bool.false_eq_true, if_false]
        exact h

/-- Helper: the finished question map of the synthesizer is good: every
key is template-shaped and every value is a non-empty list of sentences
with ink. -/
theorem genQAGood (oracle : Option (List Char → Bool)) (content : List Char) :
    MapGood (genQAL oracle content) := by
  unfold genQAL
  refine flushOldGood _ ?_
  refine foldlGood _ (fun st a hst => qaStepGood oracle (segment content) st a hst) _ _ ?_
  constructor
  · intro p hp
    simp at hp
  · intro s hs
    simp at hs

/-- Helper: a successfully parsed term is non-empty. -/
theorem parseTermNe (q t : List Char) (h : parseTerm q = some t) : t ≠ [] := by
  simp only [parseTerm] at h
  split at h
  · split at h
    · cases h
    · next hne =>
      have := Option.some.inj h
      subst this
      simpa using hne
  · split at h
    · split at h
      · cases h
      · next hne =>
        have := Option.some.inj h
        subst this
        simpa using hne
    · cases h

/-- Helper: the cleaned answer of a non-empty term and an answer list
containing ink is non-empty. -/
theorem mkBackNe (term : List Char) (ansList : List (List Char)) (ht : term ≠ [])
    (ha : ∃ s ∈ ansList, HasInk s) : mkBack term ansList ≠ [] := by
  have hink : HasInk (joinSp ansList) := by
    obtain ⟨s, hs, c, hc, hcs⟩ := ha
    exact ⟨c, memJoinSp ansList s hs c hc, hcs⟩
  have hat : stripL (joinSp ansList) ≠ [] := inkStripNe _ hink
  simp only [mkBack]
  split
  · next s hfind =>
    have hp := List.find?_some hfind
    have hlt : lowerL term ≠ [] := by
      intro h0
      exact ht (by simpa [lowerL] using h0)
    have := containsSubNe _ _ hlt hp
    intro h0
    exact this (by simpa [lowerL, h0] using congrArg lowerL h0)
  · split
    · next s hfind =>
      have hp := List.find?_some hfind
      obtain ⟨k, hk, hck⟩ := List.any_eq_true.mp hp
      have hkne : k ≠ [] := by
        have : ∀ x ∈ neuralAcc, x ≠ [] := by decide
        exact this k hk
      have := containsSubNe _ _ hkne hck
      intro h0
      rw [h0] at this
      exact this (by simp [lowerL])
    · split
      · exact hat
      · simp

/-- Helper: the assembly fold only appends cards with a template front
and a non-empty back, provided every item comes from a good map. -/
theorem buildFoldOk (content : List Char) :
    ∀ (items : List (List Char × List (List Char))),
      (∀ p ∈ items, GoodKey p.1 ∧ p.2 ≠ [] ∧ ∀ s ∈ p.2, HasInk s) →
      ∀ (acc : List Flashcard × List (List Char)),
        (∀ c ∈ acc.1, CardOk c) →
        ∀ c ∈ (items.foldl (buildStep content) acc).1, CardOk c := by
  intro items
  induction items with
  | nil =>
    intro _ acc hacc c hc
    exact hacc c hc
  | cons it rest ih =>
    intro hgood acc hacc c hc
    simp only [List.foldl_cons] at hc
    refine ih (fun p hp => hgood p (List.mem_cons_of_mem _ hp)) _ ?_ c hc
    intro c0 hc0
    simp only [buildStep] at hc0
    split at hc0
    · exact hacc c0 hc0
    · split at hc0
      · exact hacc c0 hc0
      · next term hterm =>
        rcases List.mem_append.mp hc0 with h1 | h1
        · exact hacc c0 h1
        · have hcard := List.mem_singleton.mp h1
          subst hcard
          obtain ⟨⟨t, htne, hdisj⟩, hvne, hvink⟩ := hgood it (List.mem_cons_self _ _)
          constructor
          · refine ⟨t, htne, ?_⟩
            rcases hdisj with h2 | h2
            · exact Or.inl (by simp [h2])
            · exact Or.inr (by simp [h2])
          · have htermne := parseTermNe it.1 term hterm
            obtain ⟨s, hs⟩ := List.exists_mem_of_ne_nil _ hvne
            have hback := mkBackNe term it.2 htermne ⟨s, hs, hvink s hs⟩
            intro h0
            have := congrArg String.data h0
            simp at this
            exact hback this

/-- Helper: every card assembled by the generator, before the cap, has a
template-shaped front around a non-empty term and a non-empty back. -/
theorem buildCardsOk (oracle : Option (List Char → Bool)) (content : List Char) :
    ∀ card ∈ buildCardsL oracle content, CardOk card := by
  intro card hc
  unfold buildCardsL at hc
  refine buildFoldOk content (genQAL oracle content)
    (fun p hp => genQAGood oracle content p hp) ([], []) ?_ card hc
  intro c0 hc0
  simp at hc0

/-- Helper: membership in the capped output implies membership in the
uncapped card list. -/
theorem memGenFlash (oracle : Option (List Char → Bool)) (content : String)
    (card : Flashcard) (h : card ∈ generate_flashcards oracle content) :
    card ∈ buildCardsL oracle content.toList := by
  unfold generate_flashcards genFlashL at h
  by_cases hlen : 20 < (buildCardsL oracle content.toList).length
  · simp only [hlen, if_true] at h
    exact List.mem_of_mem_take h
  · simp only [hlen, if_false] at h
    exact h

/-- C2: every card returned by generate_flashcards has a front of exactly
the form What-is-term or How-does-term-work around some non-empty term,
and is therefore non-empty. -/
theorem generate_flashcards_front_shape (oracle : Option (List Char → Bool))
    (content : String) (card : Flashcard)
    (h : card ∈ generate_flashcards oracle content) :
    (∃ t : String, t ≠ "" ∧
      (card.front = "What is " ++ t ++ "?"
       ∨ card.front = "How does " ++ t ++ " work?"))
    ∧ card.front ≠ "" := by
  obtain ⟨⟨t, htne, hdisj⟩, _⟩ :=
    buildCardsOk oracle content.toList card (memGenFlash oracle content card h)
  constructor
  · refine ⟨String.mk t, ?_, ?_⟩
    · intro h0
      exact htne (by simpa using congrArg String.data h0)
    · rcases hdisj with h1 | h1
      · exact Or.inl (by rw [h1]; rfl)
      · exact Or.inr (by rw [h1]; rfl)
  · rcases hdisj with h1 | h1 <;> rw [h1] <;> intro h0 <;>
      simpa [mkWhatQ, mkHowQ] using congrArg String.data h0

/-- C2 witness: the card generated from a concrete definitional sentence
has a What-is front around a non-empty term. -/
theorem generate_flashcards_front_shape_witness :
    (∃ t : String, t ≠ "" ∧
      ((⟨"What is Machine Learning?",
         "Machine Learning is a subset of AI that refers to systems which learn from data.",
         "Artificial Intelligence"⟩ : Flashcard).front = "What is " ++ t ++ "?"
       ∨ (⟨"What is Machine Learning?",
           "Machine Learning is a subset of AI that refers to systems which learn from data.",
           "Artificial Intelligence"⟩ : Flashcard).front = "How does " ++ t ++ " work?"))
    ∧ (⟨"What is Machine Learning?",
        "Machine Learning is a subset of AI that refers to systems which learn from data.",
        "Artificial Intelligence"⟩ : Flashcard).front ≠ "" :=
  generate_flashcards_front_shape none
    "Machine Learning is a subset of AI that refers to systems which learn from data."
    ⟨"What is Machine Learning?",
     "Machine Learning is a subset of AI that refers to systems which learn from data.",
     "Artificial Intelligence"⟩
    (by
      have h : generate_flashcards none
          "Machine Learning is a subset of AI that refers to systems which learn from data."
          = [⟨"What is Machine Learning?",
              "Machine Learning is a subset of AI that refers to systems which learn from data.",
              "Artificial Intelligence"⟩] := by decide
      rw [h]
      exact List.mem_singleton_self _)

/-- C10: every card returned by generate_flashcards has a non-empty back:
answers are only flushed when a sentence with content has accumulated,
and answer cleaning falls back to the joined text or a literal fallback
string rather than the empty string. -/
theorem generate_flashcards_back_nonempty (oracle : Option (List Char → Bool))
    (content : String) (card : Flashcard)
    (h : card ∈ generate_flashcards oracle content) : card.back ≠ "" :=
  (buildCardsOk oracle content.toList card (memGenFlash oracle content card h)).2

/-- C10 witness: the card generated from a concrete definitional sentence
has a non-empty back. -/
theorem generate_flashcards_back_nonempty_witness :
    (⟨"What is Machine Learning?",
      "Machine Learning is a subset of AI that refers to systems which learn from data.",
      "Artificial Intelligence"⟩ : Flashcard).back ≠ "" :=
  generate_flashcards_back_nonempty none
    "Machine Learning is a subset of AI that refers to systems which learn from data."
    ⟨"What is Machine Learning?",
     "Machine Learning is a subset of AI that refers to systems which learn from data.",
     "Artificial Intelligence"⟩
    (by
      have h : generate_flashcards none
          "Machine Learning is a subset of AI that refers to systems which learn from data."
          = [⟨"What is Machine Learning?",
              "Machine Learning is a subset of AI that refers to systems which learn from data.",
              "Artificial Intelligence"⟩] := by decide
      rw [h]
      exact List.mem_singleton_self _)

/-- Helper: every character of every piece of the line split occurs in
the original text. -/
theorem splitNlChars : ∀ (l : List Char) (p : List Char), p ∈ splitNl l →
    ∀ c ∈ p, c ∈ l := by
  intro l
  induction l with
  | nil =>
    intro p hp c hc
    simp only [splitNl] at hp
    have : p = [] := by simpa using hp
    subst this
    simp at hc
  | cons a rest ih =>
    intro p hp c hc
    simp only [splitNl] at hp
    split at hp
    · rcases List.mem_cons.mp hp with rfl | hp2
      · simp at hc
      · exact List.mem_cons_of_mem _ (ih p hp2 c hc)
    · split at hp
      · next q qs heq =>
        rcases List.mem_cons.mp hp with rfl | hp2
        · rcases List.mem_cons.mp hc with rfl | hc2
          · exact List.mem_cons_self _ _
          · have hq : q ∈ splitNl rest := by
              rw [heq]
              exact List.mem_cons_self _ _
            exact List.mem_cons_of_mem _ (ih q hq c hc2)
        · have hp3 : p ∈ splitNl rest := by
            rw [heq]
            exact List.mem_cons_of_mem _ hp2
          exact List.mem_cons_of_mem _ (ih p hp3 c hc)
      · next heq =>
        have : p = [a] := by simpa using hp
        subst this
        have : c = a := by simpa using hc
        subst this
        exact List.mem_cons_self _ _

/-- Helper: a bind over a list whose every element maps to nothing is
empty. -/
theorem bindNil {α β : Type} (l : List α) (f : α → List β)
    (h : ∀ x ∈ l, f x = []) : l.bind f = [] := by
  induction l with
  | nil => rfl
  | cons a rest ih =>
    show f a ++ rest.bind f = []
    rw [h a (List.mem_cons_self _ _),
      ih (fun x hx => h x (List.mem_cons_of_mem _ hx))]
    rfl

/-- Helper: whitespace-only content segments into no sentences. -/
theorem segmentBlank (content : List Char)
    (h : ∀ c ∈ content, isSpaceCh c = true) : segment content = [] := by
  unfold segment
  refine bindNil _ _ ?_
  intro ln hln
  have hall : ∀ c ∈ ln, isSpaceCh c = true :=
    fun c hc => h c (splitNlChars content ln hln c hc)
  have hnil : stripL ln = [] := allSpaceStripNil ln hall
  simp [hnil]

/-- C8: empty or whitespace-only input yields the empty card list, with
no error raised anywhere along the pipeline. -/
theorem generate_flashcards_blank_input (oracle : Option (List Char → Bool))
    (content : String) (h : ∀ c ∈ content.toList, isSpaceCh c = true) :
    generate_flashcards oracle content = [] := by
  have hseg : segment content.toList = [] := segmentBlank _ h
  unfold generate_flashcards genFlashL buildCardsL genQAL
  rw [hseg]
  rfl

/-- C8 witness: the empty input and a whitespace-only input both yield
no cards. -/
theorem generate_flashcards_blank_input_witness :
    generate_flashcards none "" = [] ∧ generate_flashcards none " \n\t " = [] :=
  ⟨generate_flashcards_blank_input none "" (by decide),
   generate_flashcards_blank_input none " \n\t " (by decide)⟩

end Flashcards
